import Mathlib

/-!
Verification of the hornet-flow orchestration core (manifest walker, file
resolver, component filter, manifest processor, event dispatcher, repository
provisioning, workflow manifest processing) as a shallow embedding in Lean.
-/

/-- A POSIX-style absolute path, modelled as its list of segments
(`/a/b` is `⟨["a", "b"]⟩`). The model assumes symlink-free absolute paths, so
Python `Path.resolve()` is the identity on them. -/
structure PyPath where
  segs : List String
deriving DecidableEq, Repr

/-- Split a character list on a separator character (Python `str.split`). -/
def splitCharsOn (sep : Char) : List Char → List (List Char)
  | [] => [[]]
  | c :: rest =>
      let r := splitCharsOn sep rest
      if c == sep then [] :: r
      else
        match r with
        | [] => [[c]]
        | g :: gs => (c :: g) :: gs

/-- Python `s.startswith(pre)` at character level. -/
def pyStartsWith (s pre : String) : Bool :=
  pre.data.isPrefixOf s.data

/-- Segments of a path reference string, dropping empty and `.` segments the
way Python `PurePosixPath` does. -/
def splitRef (s : String) : List String :=
  ((splitCharsOn '/' s.data).map (fun g => String.mk g)).filter
    (fun seg => seg != "" && seg != ".")

/-- Python `base / ref` on paths: an absolute right operand replaces the base. -/
def PyPath.div (base : PyPath) (ref : String) : PyPath :=
  if pyStartsWith ref "/" then ⟨splitRef ref⟩ else ⟨base.segs ++ splitRef ref⟩

/-- Append a single child segment. -/
def PyPath.child (p : PyPath) (seg : String) : PyPath :=
  ⟨p.segs ++ [seg]⟩

/-- Parent directory (Python `Path.parent`). -/
def PyPath.parent (p : PyPath) : PyPath :=
  ⟨p.segs.dropLast⟩

/-- String rendering of an absolute path. -/
def PyPath.render (p : PyPath) : String :=
  "/" ++ String.intercalate "/" p.segs

/-- A file entry of a manifest component (`model.py`, class `File`):
a path reference string and a file kind. -/
structure MFile where
  path : String
  type : String
deriving DecidableEq, Repr

/-- A raw manifest component node as it appears in the manifest JSON document:
id, type, description, file entries, and nested child components
(the `components` key). -/
inductive CDict where
  | mk (id : String) (type : String) (description : String)
      (files : List MFile) (components : List CDict)
deriving Repr

/-- The id of a raw component node. -/
def CDict.id : CDict → String
  | .mk i _ _ _ _ => i

/-- The type of a raw component node. -/
def CDict.type : CDict → String
  | .mk _ t _ _ _ => t

/-- The description of a raw component node. -/
def CDict.description : CDict → String
  | .mk _ _ d _ _ => d

/-- The file entries of a raw component node. -/
def CDict.files : CDict → List MFile
  | .mk _ _ _ fs _ => fs

/-- The child components of a raw component node. -/
def CDict.children : CDict → List CDict
  | .mk _ _ _ _ cs => cs

/-- A loaded manifest document: the optional `$schema` field (`none` models an
absent key) and the top-level `components` list
(`manifest_data.get("components", [])`). -/
structure ManifestData where
  schemaUrl : Option String
  components : List CDict

/-- A walked component (`model.py`, class `Component`): flat data of one node
plus the `parent_path` annotation (ids of the proper ancestors, root first). -/
structure Component where
  id : String
  type : String
  description : String
  files : List MFile
  parent_path : List String
deriving DecidableEq, Repr

/-- Build the `Component` value the walker yields for a raw node and an
ancestor path. -/
def mkComponent (d : CDict) (pp : List String) : Component :=
  ⟨d.id, d.type, d.description, d.files, pp⟩

/-- Embeds `walk_manifest_components` (manifest_service.py lines 125-170), flattened
over a list of sibling nodes: yield each component with the current
`parent_path`, then recursively walk its children with the path extended by its
id, before moving to the next sibling (depth-first pre-order). -/
def walkList : List CDict → List String → List Component
  | [], _ => []
  | CDict.mk i t d fs cs :: rest, pp =>
      mkComponent (CDict.mk i t d fs cs) pp ::
        (walkList cs (pp ++ [i]) ++ walkList rest pp)

/-- Embeds `walk_manifest_components(manifest_data)` on a whole manifest document:
walk the top-level `components` starting from the empty parent path. -/
def walk_manifest_components (m : ManifestData) : List Component :=
  walkList m.components []

/-- The node of a component tree at a position (a list of child indices);
`[]` addresses the root itself. -/
def nodeAt : CDict → List Nat → Option CDict
  | c, [] => some c
  | c, j :: p =>
      match c.children[j]? with
      | some cj => nodeAt cj p
      | none => none

/-- The ids of the proper ancestors (root first) of the node addressed by a
position inside a component tree; meaningful when `nodeAt` succeeds. -/
def ancIds : CDict → List Nat → List String
  | _, [] => []
  | c, j :: p =>
      match c.children[j]? with
      | some cj => c.id :: ancIds cj p
      | none => [c.id]

/-- Python substring containment `needle in hay` on character lists. -/
def containsSub (hay needle : List Char) : Bool :=
  hay.tails.any (fun t => needle.isPrefixOf t)

/-- Python truthiness of an optional string filter argument: `None` and the
empty string are falsy. -/
def truthyFilter : Option String → Bool
  | none => false
  | some s => s != ""

/-- Embeds `ManifestProcessor._should_process_component` (processors.py lines
95-108): a truthy type filter requires exact type equality; a truthy name
filter requires case-insensitive substring match on the id. -/
def should_process_component (c : Component) (tf nf : Option String) : Bool :=
  if truthyFilter tf && c.type != tf.getD "" then false
  else if truthyFilter nf &&
      !containsSub (c.id.data.map Char.toLower)
        ((nf.getD "").data.map Char.toLower) then false
  else true

/-- Embeds `resolve_component_file_path` (manifest_service.py lines 173-183): a
reference starting with the two-character prefix `./` is resolved against the
directory of the (resolved) manifest file with the prefix stripped; any other
reference is resolved against the repository root. -/
def resolve_component_file_path (manifest_file : PyPath) (file_path : String)
    (repo_dir : PyPath) : PyPath :=
  if pyStartsWith file_path "./" then
    PyPath.div manifest_file.parent (file_path.drop 2)
  else
    PyPath.div repo_dir file_path

/-- The exception kinds raised by the embedded code. -/
inductive Err where
  | fileNotFound (msg : String)
  | runtimeError (msg : String)
  | valueError (msg : String)
  | httpError (msg : String)
  | validationError (msg : String)
  | jsonError (msg : String)
  | calledProcessError (msg : String)
deriving DecidableEq, Repr

/-- Loop of `ManifestProcessor._resolve_component_files` (processors.py lines
110-129) over the remaining file entries, carrying the accumulated existing
paths and the missing paths logged so far: an existing resolved path is
collected; a missing one is logged and, under fail-fast, raises
FileNotFoundError. -/
def resolveFilesGo (ex : PyPath → Bool) (mp rp : PyPath) (ff : Bool) :
    List MFile → List PyPath → List PyPath →
    Except Err (List PyPath) × List PyPath
  | [], acc, miss => (.ok acc, miss)
  | f :: rest, acc, miss =>
      let p := resolve_component_file_path mp f.path rp
      if ex p then resolveFilesGo ex mp rp ff rest (acc ++ [p]) miss
      else if ff then
        (.error (.fileNotFound ("Missing file: " ++ p.render)), miss ++ [p])
      else resolveFilesGo ex mp rp ff rest acc (miss ++ [p])

/-- Embeds `ManifestProcessor._resolve_component_files`: resolve each file reference
of the component and keep only existing paths; the second output is the list
of missing resolved paths reported through the error log. -/
def resolve_component_files (ex : PyPath → Bool) (c : Component)
    (mp rp : PyPath) (ff : Bool) : Except Err (List PyPath) × List PyPath :=
  resolveFilesGo ex mp rp ff c.files [] []

/-- Embeds `ManifestProcessor._process_single_component` (processors.py lines
131-160): invoke the plugin; a True result succeeds; a False result raises
RuntimeError under fail-fast and otherwise counts as failure; a raised plugin
exception is re-raised under fail-fast and otherwise swallowed as failure. -/
def process_single_component (load : Component → List PyPath → Except Err Bool)
    (c : Component) (files : List PyPath) (ff : Bool) : Except Err Bool :=
  match load c files with
  | .ok true => .ok true
  | .ok false =>
      if ff then .error (.runtimeError ("Failed to process component: " ++ c.id))
      else .ok false
  | .error e => if ff then .error e else .ok false

/-- A recorded invocation of the plugin `load_component` capability: the index
of the component in walk order, its id, and the file list handed over. -/
structure LoadCall where
  idx : Nat
  cid : String
  files : List PyPath
deriving DecidableEq, Repr

/-- Loop of `ManifestProcessor._process_components` (processors.py lines
64-93) over the remaining walked components, carrying the walk index, the
success and total counters, the load-invocation log, and the missing-file log.
`total_count` is incremented for every walked component before the filter is
applied; filtered-out components are skipped; survivors have their files
resolved and are handed to the plugin. -/
def processGo (load : Component → List PyPath → Except Err Bool)
    (ex : PyPath → Bool) (mp rp : PyPath) (ff : Bool) (tf nf : Option String) :
    List Component → Nat → Nat → Nat → List LoadCall → List PyPath →
    Except Err (Nat × Nat) × List LoadCall × List PyPath
  | [], _, s, t, ls, ms => (.ok (s, t), ls, ms)
  | c :: rest, idx, s, t, ls, ms =>
      if should_process_component c tf nf = false then
        processGo load ex mp rp ff tf nf rest (idx + 1) s (t + 1) ls ms
      else
        match resolve_component_files ex c mp rp ff with
        | (.error e, miss) => (.error e, ls, ms ++ miss)
        | (.ok files, miss) =>
            match process_single_component load c files ff with
            | .error e => (.error e, ls ++ [⟨idx, c.id, files⟩], ms ++ miss)
            | .ok true =>
                processGo load ex mp rp ff tf nf rest (idx + 1) (s + 1) (t + 1)
                  (ls ++ [⟨idx, c.id, files⟩]) (ms ++ miss)
            | .ok false =>
                processGo load ex mp rp ff tf nf rest (idx + 1) s (t + 1)
                  (ls ++ [⟨idx, c.id, files⟩]) (ms ++ miss)

/-- Embeds `ManifestProcessor._process_components`: fold the loop over the walked
manifest, starting with zero counters and empty logs. -/
def process_components (load : Component → List PyPath → Except Err Bool)
    (ex : PyPath → Bool) (m : ManifestData) (mp rp : PyPath) (ff : Bool)
    (tf nf : Option String) :
    Except Err (Nat × Nat) × List LoadCall × List PyPath :=
  processGo load ex mp rp ff tf nf (walk_manifest_components m) 0 0 0 [] []

/-- The behaviour of an acquired plugin instance: the outcome of `setup`, the
outcome of each `load_component` invocation as a function of the component and
its files, and the outcome of `teardown`. -/
structure Plugin where
  setupR : Except Err Unit
  load : Component → List PyPath → Except Err Bool
  teardownR : Except Err Unit

/-- The observable trace of one `process_manifest` call: plugin load
invocations, logged missing files, and the number of teardown invocations. -/
structure PTrace where
  loads : List LoadCall
  missing : List PyPath
  teardowns : Nat

/-- Embeds `ManifestProcessor.process_manifest` (processors.py lines 22-62): acquire
the plugin (lookup and construction; failure leaves no instance and skips
teardown), run `setup`, parse the manifest, process its components, and in the
`finally` block invoke `teardown` exactly once whenever an instance was
acquired; an exception raised by `teardown` replaces the body outcome. -/
def process_manifest (getP : Except Err Plugin)
    (readR : Except Err ManifestData) (ex : PyPath → Bool) (mp rp : PyPath)
    (ff : Bool) (tf nf : Option String) :
    Except Err (Nat × Nat) × PTrace :=
  match getP with
  | .error e => (.error e, ⟨[], [], 0⟩)
  | .ok plugin =>
      let body : Except Err (Nat × Nat) × List LoadCall × List PyPath :=
        match plugin.setupR with
        | .error e => (.error e, [], [])
        | .ok _ =>
            match readR with
            | .error e => (.error e, [], [])
            | .ok m => process_components plugin.load ex m mp rp ff tf nf
      match plugin.teardownR with
      | .error te => (.error te, ⟨body.2.1, body.2.2, 1⟩)
      | .ok _ => (body.1, ⟨body.2.1, body.2.2, 1⟩)

deriving instance DecidableEq for Except

/-- Specification helper: the resolved file paths of a component that exist. -/
def resolvedExisting (ex : PyPath → Bool) (mp rp : PyPath) (c : Component) :
    List PyPath :=
  (c.files.map (fun f => resolve_component_file_path mp f.path rp)).filter ex

/-- Specification helper: the resolved file paths of a component that are
missing. -/
def resolvedMissing (ex : PyPath → Bool) (mp rp : PyPath) (c : Component) :
    List PyPath :=
  (c.files.map (fun f => resolve_component_file_path mp f.path rp)).filter
    (fun p => !ex p)

/-- Specification helper: the first missing resolved file path of a
component, if any. -/
def firstMissing (ex : PyPath → Bool) (mp rp : PyPath) (c : Component) :
    Option PyPath :=
  (c.files.map (fun f => resolve_component_file_path mp f.path rp)).find?
    (fun p => !ex p)

/-- Specification helper: the plugin invocations expected from processing a
component list without fail-fast, starting at a given walk index: one
invocation per filter-surviving component, in order, handed exactly its
existing resolved files. -/
def expectedCallsFrom (ex : PyPath → Bool) (mp rp : PyPath)
    (tf nf : Option String) : List Component → Nat → List LoadCall
  | [], _ => []
  | c :: rest, idx =>
      if should_process_component c tf nf then
        ⟨idx, c.id, resolvedExisting ex mp rp c⟩ ::
          expectedCallsFrom ex mp rp tf nf rest (idx + 1)
      else expectedCallsFrom ex mp rp tf nf rest (idx + 1)

/-- Specification helper: the missing-file log expected from processing a
component list without fail-fast: the missing resolved paths of each
filter-surviving component, in order. -/
def expectedMissingAll (ex : PyPath → Bool) (mp rp : PyPath)
    (tf nf : Option String) : List Component → List PyPath
  | [] => []
  | c :: rest =>
      (if should_process_component c tf nf then resolvedMissing ex mp rp c
       else []) ++ expectedMissingAll ex mp rp tf nf rest

/-- The four fixed workflow lifecycle events (workflow_service.py lines
56-68). -/
inductive WorkflowEvent where
  | workflow_started
  | repository_ready
  | manifests_ready
  | workflow_completed
deriving DecidableEq, Repr

/-- The keyword-argument bag a trigger passes to every callback. -/
abbrev Ctx := List (String × String)

/-- A registered callback: an identifying tag and the callable, which may
raise. -/
structure Handler where
  tag : Nat
  run : Ctx → Except String Unit

/-- Python dict lookup on the callback registry. -/
def getCallbacks : List (WorkflowEvent × List Handler) → WorkflowEvent →
    Option (List Handler)
  | [], _ => none
  | (e', hs) :: rest, e => if e' = e then some hs else getCallbacks rest e

/-- Python dict assignment on the callback registry: replace the entry of an
existing key, else add a new one. -/
def setCallbacks : List (WorkflowEvent × List Handler) → WorkflowEvent →
    List Handler → List (WorkflowEvent × List Handler)
  | [], e, hs => [(e, hs)]
  | (e', hs') :: rest, e, hs =>
      if e' = e then (e, hs) :: rest else (e', hs') :: setCallbacks rest e hs

/-- Embeds `EventDispatcher` (workflow_service.py lines 71-91): a mapping from event
to its ordered callback list. -/
structure EventDispatcher where
  callbacks : List (WorkflowEvent × List Handler)

/-- A fresh dispatcher with no callbacks. -/
def EventDispatcher.empty : EventDispatcher := ⟨[]⟩

/-- Embeds `EventDispatcher.register`: create the event entry when absent, then
append the callback to that event's list. -/
def EventDispatcher.reg (d : EventDispatcher) (e : WorkflowEvent)
    (h : Handler) : EventDispatcher :=
  ⟨setCallbacks d.callbacks e ((getCallbacks d.callbacks e).getD [] ++ [h])⟩

/-- Embeds `EventDispatcher.trigger`: invoke every callback registered for the event
with the same keyword context, in registration order, catching (logging) any
exception a callback raises; the returned list records each invocation with
its outcome. An event with no entry triggers nothing. -/
def EventDispatcher.trig (d : EventDispatcher) (e : WorkflowEvent) (ctx : Ctx) :
    List (Nat × Ctx × Except String Unit) :=
  match getCallbacks d.callbacks e with
  | none => []
  | some hs => hs.map (fun h => (h.tag, ctx, h.run ctx))

/-- A sequence of `register` calls applied to a fresh dispatcher. -/
def registerAll (regs : List (WorkflowEvent × Handler)) : EventDispatcher :=
  regs.foldl (fun d r => d.reg r.1 r.2) EventDispatcher.empty

/-- A filesystem state: the sets of existing directories and regular files,
as absolute paths. -/
structure FS where
  dirs : List PyPath
  files : List PyPath
deriving DecidableEq, Repr

/-- Python `Path.exists()`: the path names an existing directory or file. -/
def FS.existsPath (fs : FS) (p : PyPath) : Bool :=
  fs.dirs.contains p || fs.files.contains p

/-- Python `Path.is_file()`. -/
def FS.isFile (fs : FS) (p : PyPath) : Bool :=
  fs.files.contains p

/-- Directory creation (`mkdir` / `mkdtemp`). -/
def FS.mkdir (fs : FS) (p : PyPath) : FS :=
  ⟨p :: fs.dirs, fs.files⟩

/-- Python `shutil.rmtree`: remove the directory and everything below it. -/
def FS.rmtree (fs : FS) (root : PyPath) : FS :=
  ⟨fs.dirs.filter (fun q => !root.segs.isPrefixOf q.segs),
   fs.files.filter (fun q => !root.segs.isPrefixOf q.segs)⟩

/-- Embeds `_check` inside `find_hornet_manifests`: the target if it exists and is a
regular file, else nothing. -/
def checkManifestFile (fs : FS) (target : PyPath) : Option PyPath :=
  if fs.existsPath target && fs.isFile target then some target else none

/-- Embeds `find_hornet_manifests` (manifest_service.py lines 53-74): when the
`.hornet` directory exists, look for both well-known manifest file names only
inside it; otherwise look for them at the repository root. -/
def find_hornet_manifests (fs : FS) (repoPath : PyPath) :
    Option PyPath × Option PyPath :=
  let hornetDir := repoPath.child ".hornet"
  if fs.existsPath hornetDir then
    (checkManifestFile fs (hornetDir.child "cad_manifest.json"),
     checkManifestFile fs (hornetDir.child "sim_manifest.json"))
  else
    (checkManifestFile fs (repoPath.child "cad_manifest.json"),
     checkManifestFile fs (repoPath.child "sim_manifest.json"))

/-- Embeds `_extract_schema_url` (manifest_service.py lines 30-39): a missing or
falsy (empty) `$schema` value raises FileNotFoundError. -/
def extract_schema_url (m : ManifestData) (manifestFile : PyPath) :
    Except Err String :=
  match m.schemaUrl with
  | none =>
      .error (.fileNotFound ("No $schema field found in " ++
        manifestFile.render))
  | some url =>
      if url = "" then
        .error (.fileNotFound ("No $schema field found in " ++
          manifestFile.render))
      else .ok url

/-- A release record (model.py). -/
structure Release where
  origin : String
  url : String
  label : String
  marker : String
deriving DecidableEq, Repr

/-- The external capabilities the workflow manifest step consumes: the
filesystem, manifest file reading (JSON load), schema download over HTTP,
JSON-schema validation, and the manifest processor run. -/
structure WorkflowEnv where
  fs : FS
  readManifest : PyPath → Except Err ManifestData
  download : String → Except Err String
  schemaCheck : ManifestData → String → Except Err Unit
  processorRun : PyPath → PyPath → Bool → Option String → Option String →
    Option Release → Except Err (Nat × Nat)

/-- Modelled from the spec: `ManifestProcessor.process_manifest` of
`hornet_flow/services/processor.py` is imported by workflow_service.py and
api.py but the module itself is not under src/. Spec section 4.5 fixes its
signature as `process(manifest_path, repo_root, fail_fast, type_filter?,
name_filter?, release?) -> ProcessingOutcome`; its behaviour is abstracted as
the environment capability `processorRun`, applied in exactly that parameter
order. -/
def processorProcessManifest (env : WorkflowEnv) (manifest_path : PyPath)
    (repo_root : PyPath) (fail_fast : Bool) (tf nf : Option String)
    (rel : Option Release) : Except Err (Nat × Nat) :=
  env.processorRun manifest_path repo_root fail_fast tf nf rel

/-- Embeds `validate_manifest_schema` (manifest_service.py lines 77-94): load the
manifest, extract the `$schema` URL, download the schema, validate against
it; each step may raise. -/
def validate_manifest_schema_w (env : WorkflowEnv) (manifestFile : PyPath) :
    Except Err Unit :=
  match env.readManifest manifestFile with
  | .error e => .error e
  | .ok m =>
      match extract_schema_url m manifestFile with
      | .error e => .error e
      | .ok url =>
          match env.download url with
          | .error e => .error e
          | .ok schema => env.schemaCheck m schema

/-- A recorded manifest validation failure, tagged by which manifest failed
(the `validation_errors` log entries). -/
inductive ValErr where
  | cad (e : Err)
  | sim (e : Err)
deriving DecidableEq, Repr

/-- A recorded invocation of the manifest processor with the arguments it was
handed. -/
structure ProcessorCall where
  manifest : PyPath
  repo : PyPath
  fail_fast : Bool
  type_filter : Option String
  name_filter : Option String
  release : Option Release
deriving DecidableEq, Repr

/-- The observable outcome of `_process_manifests`: the returned counts or
raised exception, the accumulated validation-error log, and the processor
invocations performed. -/
structure PMResult where
  result : Except Err (Nat × Nat)
  validationErrors : List ValErr
  processorCalls : List ProcessorCall
deriving DecidableEq, Repr

/-- Embeds `_process_manifest_with_plugin` (workflow_service.py lines 276-290): run
the processor on the CAD manifest, passing the literal `True` as the third,
fail-fast, argument; the second output records the invocation. -/
def process_manifest_with_plugin (env : WorkflowEnv) (cad repoPath : PyPath)
    (tf nf : Option String) (rel : Option Release) :
    Except Err (Nat × Nat) × ProcessorCall :=
  (processorProcessManifest env cad repoPath true tf nf rel,
   ⟨cad, repoPath, true, tf, nf, rel⟩)

/-- Embeds `_process_manifests` (workflow_service.py lines 210-273): discover the two
manifests (finding neither is fatal); validate each discovered manifest,
re-raising on failure under fail-fast and otherwise recording the error; then
process the CAD manifest with the plugin when present. -/
def process_manifests_w (env : WorkflowEnv) (repoPath : PyPath) (ff : Bool)
    (tf nf : Option String) (rel : Option Release) : PMResult :=
  let found := find_hornet_manifests env.fs repoPath
  let cadM := found.1
  let simM := found.2
  if cadM.isNone && simM.isNone then
    ⟨.error (.fileNotFound ("No hornet manifest files found in repository at "
      ++ repoPath.render)), [], []⟩
  else
    let cadStep : Except Err (List ValErr) :=
      match cadM with
      | none => .ok []
      | some c =>
          match validate_manifest_schema_w env c with
          | .ok _ => .ok []
          | .error e => if ff then .error e else .ok [ValErr.cad e]
    match cadStep with
    | .error e => ⟨.error e, [], []⟩
    | .ok errs1 =>
        let simStep : Except Err (List ValErr) :=
          match simM with
          | none => .ok []
          | some sm =>
              match validate_manifest_schema_w env sm with
              | .ok _ => .ok []
              | .error e => if ff then .error e else .ok [ValErr.sim e]
        match simStep with
        | .error e => ⟨.error e, errs1, []⟩
        | .ok errs2 =>
            match cadM with
            | some cad =>
                let pr := process_manifest_with_plugin env cad repoPath tf nf
                  rel
                ⟨pr.1, errs1 ++ errs2, [pr.2]⟩
            | none => ⟨.ok (0, 0), errs1 ++ errs2, []⟩

/-- Python `str.rstrip("/")`. -/
def rstripSlashes (s : String) : String :=
  ⟨(s.toList.reverse.dropWhile (fun ch => ch == '/')).reverse⟩

/-- The last `/`-separated segment of a string (`split("/")[-1]`). -/
def lastSlashSeg (s : String) : String :=
  (((splitCharsOn '/' s.data).map (fun g => String.mk g)).getLast?).getD ""

/-- Python `PurePath.stem`: the final component without its suffix; a suffix
is present only when the last dot is neither the first nor the last
character. -/
def pathStem (name : String) : String :=
  match (name.toList.enum.filter (fun x => x.2 == '.')).getLast? with
  | some (i, _) =>
      if 0 < i ∧ i < name.toList.length - 1 then ⟨name.toList.take i⟩
      else name
  | none => name

/-- Embeds `_local_repository_dir` (workflow_service.py lines 22-53): allocate a
fresh uniquely named working directory `hornet_<unique>_repo` under the base
directory (the unique token stands for the fresh name `mkdtemp` picks),
derive the target repository path from the repository name, run the body on
it; an exception from the body removes the allocated directory tree (when it
still exists) before re-raising, while success keeps it and hands back the
target path. -/
def localRepositoryDir (repoUrl : String) (workPath : PyPath) (unique : String)
    (body : PyPath → FS → FS × Except Err Unit) (fs : FS) :
    FS × Except Err PyPath :=
  let tempPath := workPath.child ("hornet_" ++ unique ++ "_repo")
  let fs1 := fs.mkdir tempPath
  let repoName := pathStem (lastSlashSeg (rstripSlashes repoUrl))
  let target := tempPath.child repoName
  match body target fs1 with
  | (fs2, .ok _) => (fs2, .ok target)
  | (fs2, .error e) =>
      ((if fs2.existsPath tempPath then fs2.rmtree tempPath else fs2),
        .error e)

/-- Embeds `clone_repository` (git_service.py lines 84-131) at the filesystem level:
reject non-HTTP(S) URLs, create the target directory, then clone and checkout
through the external git capability, whose success is the model parameter
`gitOk`; a git failure raises CalledProcessError after the directory was
created. -/
def clone_repository (gitOk : Bool) (repoUrl : String) (target : PyPath)
    (fs : FS) : FS × Except Err Unit :=
  if !(pyStartsWith repoUrl "http://") && !(pyStartsWith repoUrl "https://") then
    (fs, .error (.valueError ("Repository URL must be HTTP(S): " ++ repoUrl)))
  else
    let fs1 := fs.mkdir target
    if gitOk then (fs1, .ok ())
    else (fs1, .error (.calledProcessError "git clone"))

/-- The repository-provisioning step of `run_workflow` (workflow_service.py
lines 161-168): inside the scoped working directory, clone the repository
into the target path; the target becomes the repository path on success. -/
def provisionRepository (gitOk : Bool) (repoUrl : String) (workPath : PyPath)
    (unique : String) (fs : FS) : FS × Except Err PyPath :=
  localRepositoryDir repoUrl workPath unique
    (fun target fs' => clone_repository gitOk repoUrl target fs') fs

/-- When a position addresses a node, the ancestor-id chain along it has the
same length as the position. -/
theorem ancIds_length : ∀ (c : CDict) (p : List Nat) (d : CDict),
    nodeAt c p = some d → (ancIds c p).length = p.length
  | _, [], _, _ => by simp [ancIds]
  | c, j :: p, d, h => by
      simp only [nodeAt] at h
      cases hj : c.children[j]? with
      | none => rw [hj] at h; exact absurd h (by simp)
      | some cj =>
          rw [hj] at h
          simp only [ancIds, hj, List.length_cons]
          rw [ancIds_length cj p d h]

/-- Every component yielded from a list of sibling trees with base path `pp`
is the node at some position of some tree in the list, carrying `pp` extended
by the ids along that position as its parent path. -/
theorem mem_walkList : ∀ (cs : List CDict) (pp : List String) (x : Component),
    x ∈ walkList cs pp →
    ∃ (i : Nat) (c : CDict) (p : List Nat) (dd : CDict), cs[i]? = some c ∧
      nodeAt c p = some dd ∧ x = mkComponent dd (pp ++ ancIds c p)
  | [], pp, x, hx => by simp [walkList] at hx
  | CDict.mk i t d fs cs :: rest, pp, x, hx => by
      rw [walkList] at hx
      rcases List.mem_cons.mp hx with h | h
      · exact ⟨0, CDict.mk i t d fs cs, [], CDict.mk i t d fs cs, by simp, rfl,
          by simpa [ancIds] using h⟩
      · rcases List.mem_append.mp h with h | h
        · obtain ⟨j, c', p, dd, h1, h2, h3⟩ := mem_walkList cs (pp ++ [i]) x h
          refine ⟨0, CDict.mk i t d fs cs, j :: p, dd, by simp, ?_, ?_⟩
          · simp [nodeAt, CDict.children, h1, h2]
          · rw [h3]
            simp [ancIds, CDict.children, h1, CDict.id]
        · obtain ⟨j, c', p, dd, h1, h2, h3⟩ := mem_walkList rest pp x h
          exact ⟨j + 1, c', p, dd, by simpa using h1, h2, h3⟩

/-- C5: every component yielded by the manifest tree walker is the node of the
manifest tree at some position; its `parent_path` annotation equals the ids of
its proper ancestors, root first, and its length equals the nesting depth of
the node; and the walk is pre-order: each node is yielded first, before the
walk of its children, which precedes the walk of the following siblings. -/
theorem walker_ancestor_path_and_preorder :
    (∀ (m : ManifestData) (x : Component), x ∈ walk_manifest_components m →
      ∃ (i : Nat) (c : CDict) (p : List Nat) (dd : CDict),
        m.components[i]? = some c ∧ nodeAt c p = some dd ∧
        x = mkComponent dd (ancIds c p) ∧ x.parent_path = ancIds c p ∧
        x.parent_path.length = p.length) ∧
    (∀ (i t dsc : String) (fs : List MFile) (cs rest : List CDict)
        (pp : List String),
      walkList (CDict.mk i t dsc fs cs :: rest) pp =
        mkComponent (CDict.mk i t dsc fs cs) pp ::
          (walkList cs (pp ++ [i]) ++ walkList rest pp)) := by
  constructor
  · intro m x hx
    obtain ⟨i, c, p, dd, h1, h2, h3⟩ := mem_walkList m.components [] x hx
    refine ⟨i, c, p, dd, h1, h2, by simpa using h3, ?_, ?_⟩
    · rw [h3]; simp [mkComponent]
    · rw [h3]; simp [mkComponent, ancIds_length c p dd h2]
  · intro i t dsc fs cs rest pp
    rw [walkList]

/-- Witness for C5 on a concrete two-level manifest: the nested part sits at
position `[0]` inside the first top-level assembly, with ancestor path
`["asm1"]` of length 1. -/
theorem walker_ancestor_path_and_preorder_witness :
    ∃ (i : Nat) (c : CDict) (p : List Nat) (dd : CDict),
      (ManifestData.mk (some "u")
        [CDict.mk "asm1" "assembly" "top" []
          [CDict.mk "part1" "part" "leaf" [] []]]).components[i]? = some c ∧
      nodeAt c p = some dd ∧
      mkComponent (CDict.mk "part1" "part" "leaf" [] []) ["asm1"] =
        mkComponent dd (ancIds c p) ∧
      (mkComponent (CDict.mk "part1" "part" "leaf" [] []) ["asm1"]).parent_path
        = ancIds c p ∧
      (mkComponent (CDict.mk "part1" "part" "leaf" [] [])
        ["asm1"]).parent_path.length = p.length :=
  walker_ancestor_path_and_preorder.1
    (ManifestData.mk (some "u")
      [CDict.mk "asm1" "assembly" "top" []
        [CDict.mk "part1" "part" "leaf" [] []]])
    (mkComponent (CDict.mk "part1" "part" "leaf" [] []) ["asm1"])
    (by simp [walk_manifest_components, walkList])


/-- C2: whenever plugin acquisition succeeded (so in particular whenever
plugin setup succeeded), `process_manifest` invokes `teardown` exactly once,
on every exit path: normal return, an exception from setup, from manifest
parsing, or from any `load_component` (all absorbed in the plugin behaviour
and parse outcome, which are universally quantified here). -/
theorem process_manifest_teardown_once
    (getP : Except Err Plugin) (plugin : Plugin)
    (readR : Except Err ManifestData) (ex : PyPath → Bool) (mp rp : PyPath)
    (ff : Bool) (tf nf : Option String) (h : getP = Except.ok plugin) :
    (process_manifest getP readR ex mp rp ff tf nf).2.teardowns = 1 := by
  subst h
  simp only [process_manifest]
  cases plugin.teardownR <;> simp

/-- Witness for C2: a concrete run whose manifest parsing raises still tears
the plugin down exactly once. -/
theorem process_manifest_teardown_once_witness :
    (process_manifest
      (Except.ok ⟨Except.ok (), fun _ _ => Except.ok true, Except.ok ()⟩)
      (Except.error (Err.jsonError "invalid json")) (fun _ => false)
      ⟨["repo", "m.json"]⟩ ⟨["repo"]⟩ true none none).2.teardowns = 1 :=
  process_manifest_teardown_once _ _ _ _ _ _ _ _ _ rfl

/-- Invariant of the component-processing loop on normal completion: the
total counter grows by exactly the number of walked components, the success
counter by at most the number of filter survivors, and every recorded plugin
invocation belongs to a filter-surviving walk position. -/
theorem processGo_ok_inv (load : Component → List PyPath → Except Err Bool)
    (ex : PyPath → Bool) (mp rp : PyPath) (ff : Bool) (tf nf : Option String) :
    ∀ (L : List Component) (idx s t : Nat) (ls : List LoadCall)
      (ms : List PyPath) (s' t' : Nat) (ls' : List LoadCall) (ms' : List PyPath),
    processGo load ex mp rp ff tf nf L idx s t ls ms
      = (Except.ok (s', t'), ls', ms') →
    t' = t + L.length ∧
    s' ≤ s + (L.filter (fun c => should_process_component c tf nf)).length ∧
    ∀ call ∈ ls', call ∈ ls ∨ ∃ (j : Nat) (c : Component), L[j]? = some c ∧
      call.idx = idx + j ∧ should_process_component c tf nf = true := by
  intro L
  induction L with
  | nil =>
      intro idx s t ls ms s' t' ls' ms' h
      simp only [processGo] at h
      obtain ⟨h1, h2, h3⟩ : Except.ok (s, t) = Except.ok (s', t')
          ∧ ls = ls' ∧ ms = ms' := by
        exact ⟨congrArg Prod.fst h, congrArg (fun x => x.2.1) h,
          congrArg (fun x => x.2.2) h⟩
      obtain ⟨hs, ht⟩ : s = s' ∧ t = t' := by
        cases h1; exact ⟨rfl, rfl⟩
      subst hs; subst ht; subst h2
      exact ⟨by simp, by simp, fun call hc => Or.inl hc⟩
  | cons c rest ih =>
      intro idx s t ls ms s' t' ls' ms' h
      simp only [processGo] at h
      by_cases hsp : should_process_component c tf nf = false
      · rw [if_pos hsp] at h
        obtain ⟨h1, h2, h3⟩ := ih (idx + 1) s (t + 1) ls ms s' t' ls' ms' h
        refine ⟨by simpa [Nat.add_assoc, Nat.add_comm 1] using h1, ?_, ?_⟩
        · simpa [List.filter, hsp] using h2
        · intro call hc
          rcases h3 call hc with hin | ⟨j, c', hj, hidx, hsp'⟩
          · exact Or.inl hin
          · exact Or.inr ⟨j + 1, c', by simpa using hj,
              by omega, hsp'⟩
      · rw [if_neg hsp] at h
        rcases hr : resolve_component_files ex c mp rp ff with ⟨res, miss⟩
        rw [hr] at h
        cases res with
        | error e => simp at h
        | ok files =>
            dsimp only at h
            rcases hps : process_single_component load c files ff with e | b
            · rw [hps] at h; simp at h
            · rw [hps] at h
              have hspT : should_process_component c tf nf = true := by
                cases hx : should_process_component c tf nf
                · exact absurd hx hsp
                · rfl
              cases b with
              | true =>
                  obtain ⟨h1, h2, h3⟩ := ih (idx + 1) (s + 1) (t + 1)
                    (ls ++ [⟨idx, c.id, files⟩]) (ms ++ miss) s' t' ls' ms' h
                  refine ⟨by simpa [Nat.add_assoc, Nat.add_comm 1] using h1,
                    ?_, ?_⟩
                  · have : (List.filter (fun c => should_process_component c tf nf) (c :: rest)).length
                        = (List.filter (fun c => should_process_component c tf nf) rest).length + 1 := by
                      simp [List.filter, hspT]
                    omega
                  · intro call hc
                    rcases h3 call hc with hin | ⟨j, c', hj, hidx, hsp'⟩
                    · rcases List.mem_append.mp hin with hin | hin
                      · exact Or.inl hin
                      · refine Or.inr ⟨0, c, by simp, ?_, hspT⟩
                        have hceq : call = ⟨idx, c.id, files⟩ := by
                          simpa using hin
                        simp [hceq]
                    · exact Or.inr ⟨j + 1, c', by simpa using hj, by omega, hsp'⟩
              | false =>
                  obtain ⟨h1, h2, h3⟩ := ih (idx + 1) s (t + 1)
                    (ls ++ [⟨idx, c.id, files⟩]) (ms ++ miss) s' t' ls' ms' h
                  refine ⟨by simpa [Nat.add_assoc, Nat.add_comm 1] using h1,
                    ?_, ?_⟩
                  · have : (List.filter (fun c => should_process_component c tf nf) (c :: rest)).length
                        = (List.filter (fun c => should_process_component c tf nf) rest).length + 1 := by
                      simp [List.filter, hspT]
                    omega
                  · intro call hc
                    rcases h3 call hc with hin | ⟨j, c', hj, hidx, hsp'⟩
                    · rcases List.mem_append.mp hin with hin | hin
                      · exact Or.inl hin
                      · refine Or.inr ⟨0, c, by simp, ?_, hspT⟩
                        have hceq : call = ⟨idx, c.id, files⟩ := by
                          simpa using hin
                        simp [hceq]
                    · exact Or.inr ⟨j + 1, c', by simpa using hj, by omega, hsp'⟩


/-- Counterexample for C1: a one-component manifest whose only component is
excluded by the type filter still yields `total_count = 1`, because the code
increments `total_count` before applying the filter; so a filtered-out
component is not excluded from `total_count`. -/
theorem filtered_out_component_still_counted :
    process_components (fun _ _ => Except.ok true) (fun _ => true)
      ⟨some "u", [CDict.mk "p1" "part" "d" [] []]⟩
      ⟨["r", "m.json"]⟩ ⟨["r"]⟩ false (some "assembly") none
      = (Except.ok (0, 1), [], []) ∧
    should_process_component (mkComponent (CDict.mk "p1" "part" "d" [] []) [])
      (some "assembly") none = false := by
  constructor
  · have hw : walk_manifest_components
        ⟨some "u", [CDict.mk "p1" "part" "d" [] []]⟩
        = [mkComponent (CDict.mk "p1" "part" "d" [] []) []] := by
      simp [walk_manifest_components, walkList]
    rw [process_components, hw]
    decide
  · decide

/-- C1 (amended): on normal completion `total_count` equals the number of
walked components, filtered-out ones included; filter-surviving components
are counted exactly once each regardless of outcome; excluded components
never contribute to `success_count` (every plugin invocation belongs to a
surviving walk position, and `success_count` is bounded by the survivor
count). -/
theorem total_counts_walked_success_counts_survivors
    (load : Component → List PyPath → Except Err Bool) (ex : PyPath → Bool)
    (m : ManifestData) (mp rp : PyPath) (ff : Bool) (tf nf : Option String)
    (s t : Nat) (ls : List LoadCall) (ms : List PyPath)
    (h : process_components load ex m mp rp ff tf nf
      = (Except.ok (s, t), ls, ms)) :
    t = (walk_manifest_components m).length ∧
    s ≤ ((walk_manifest_components m).filter
          (fun c => should_process_component c tf nf)).length ∧
    ∀ call ∈ ls, ∃ c, (walk_manifest_components m)[call.idx]? = some c ∧
      should_process_component c tf nf = true := by
  obtain ⟨h1, h2, h3⟩ := processGo_ok_inv load ex mp rp ff tf nf
    (walk_manifest_components m) 0 0 0 [] [] s t ls ms h
  refine ⟨by simpa using h1, by simpa using h2, fun call hc => ?_⟩
  rcases h3 call hc with hin | ⟨j, c, hj, hidx, hsp⟩
  · simp at hin
  · exact ⟨c, by rw [hidx]; simpa using hj, hsp⟩

/-- Witness for the amended C1 on a concrete one-component manifest. -/
theorem total_counts_walked_success_counts_survivors_witness :
    (0 : Nat) = (walk_manifest_components
      ⟨some "u", [CDict.mk "p1" "part" "d" [] []]⟩).length - 1 ∧
    ((1 : Nat) = (walk_manifest_components
      ⟨some "u", [CDict.mk "p1" "part" "d" [] []]⟩).length ∧
    (0 : Nat) ≤ ((walk_manifest_components
      ⟨some "u", [CDict.mk "p1" "part" "d" [] []]⟩).filter
        (fun c => should_process_component c (some "assembly") none)).length ∧
    ∀ call ∈ ([] : List LoadCall), ∃ c,
      (walk_manifest_components
        ⟨some "u", [CDict.mk "p1" "part" "d" [] []]⟩)[call.idx]? = some c ∧
      should_process_component c (some "assembly") none = true) := by
  constructor
  · simp [walk_manifest_components, walkList]
  · refine total_counts_walked_success_counts_survivors
      (fun _ _ => Except.ok true) (fun _ => true) _ ⟨["r", "m.json"]⟩ ⟨["r"]⟩
      false (some "assembly") none 0 1 [] [] ?_
    have hw : walk_manifest_components
        ⟨some "u", [CDict.mk "p1" "part" "d" [] []]⟩
        = [mkComponent (CDict.mk "p1" "part" "d" [] []) []] := by
      simp [walk_manifest_components, walkList]
    rw [process_components, hw]
    decide

/-- C6: for every manifest path, reference string and repository root, a
reference starting with the two-character prefix `./` resolves to the
manifest directory joined with the reference minus that prefix, and any
other reference resolves to the repository root joined with the reference;
`resolve_component_file_path` is a pure function of these three arguments
and consults no filesystem. -/
theorem resolver_dual_convention (mf : PyPath) (ref : String) (repo : PyPath) :
    (pyStartsWith ref "./" = true →
      resolve_component_file_path mf ref repo
        = PyPath.div mf.parent (ref.drop 2)) ∧
    (pyStartsWith ref "./" = false →
      resolve_component_file_path mf ref repo = PyPath.div repo ref) := by
  constructor <;> intro h <;> simp [resolve_component_file_path, h]

/-- Witness for C6: the two concrete resolutions from the specification. -/
theorem resolver_dual_convention_witness :
    resolve_component_file_path ⟨["a", "b", "manifest.json"]⟩ "./x.step"
      ⟨["repo"]⟩ = ⟨["a", "b", "x.step"]⟩ ∧
    resolve_component_file_path ⟨["a", "b", "manifest.json"]⟩ "x.step"
      ⟨["repo"]⟩ = ⟨["repo", "x.step"]⟩ := by
  have h1 := (resolver_dual_convention ⟨["a", "b", "manifest.json"]⟩
    "./x.step" ⟨["repo"]⟩).1 (by decide)
  have h2 := (resolver_dual_convention ⟨["a", "b", "manifest.json"]⟩
    "x.step" ⟨["repo"]⟩).2 (by decide)
  rw [h1, h2]
  constructor <;> decide

/-- C9 (amended): manifest discovery is gated on the existence of the
`.hornet` directory: when it exists, only it is searched for the two
well-known file names (the repository root is not consulted even if the
files exist there); when it does not exist, the repository root is searched;
and when discovery yields neither manifest, the workflow terminates with a
not-found error. -/
theorem discovery_gated_on_hornet_dir (fs : FS) (repoPath : PyPath) :
    (fs.existsPath (repoPath.child ".hornet") = true →
      find_hornet_manifests fs repoPath =
        (checkManifestFile fs
          ((repoPath.child ".hornet").child "cad_manifest.json"),
         checkManifestFile fs
          ((repoPath.child ".hornet").child "sim_manifest.json"))) ∧
    (fs.existsPath (repoPath.child ".hornet") = false →
      find_hornet_manifests fs repoPath =
        (checkManifestFile fs (repoPath.child "cad_manifest.json"),
         checkManifestFile fs (repoPath.child "sim_manifest.json"))) ∧
    (∀ (env : WorkflowEnv) (ff : Bool) (tf nf : Option String)
       (rel : Option Release), env.fs = fs →
      find_hornet_manifests fs repoPath = (none, none) →
      (process_manifests_w env repoPath ff tf nf rel).result
        = Except.error (Err.fileNotFound
            ("No hornet manifest files found in repository at "
              ++ repoPath.render))) := by
  refine ⟨fun h => ?_, fun h => ?_, fun env ff tf nf rel henv hfind => ?_⟩
  · simp [find_hornet_manifests, h]
  · simp [find_hornet_manifests, h]
  · simp only [process_manifests_w, henv, hfind]
    rfl

/-- Counterexample for C9: with an existing but empty `.hornet` directory
and a CAD manifest present at the repository root, discovery returns neither
manifest; the promised fallback to the repository root does not happen. -/
theorem discovery_ignores_root_when_hornet_exists :
    find_hornet_manifests
      ⟨[⟨["repo"]⟩, ⟨["repo", ".hornet"]⟩], [⟨["repo", "cad_manifest.json"]⟩]⟩
      ⟨["repo"]⟩ = (none, none) ∧
    FS.isFile
      ⟨[⟨["repo"]⟩, ⟨["repo", ".hornet"]⟩], [⟨["repo", "cad_manifest.json"]⟩]⟩
      (PyPath.child ⟨["repo"]⟩ "cad_manifest.json") = true ∧
    FS.existsPath
      ⟨[⟨["repo"]⟩, ⟨["repo", ".hornet"]⟩], [⟨["repo", "cad_manifest.json"]⟩]⟩
      (PyPath.child ⟨["repo"]⟩ ".hornet") = true := by
  decide

/-- Witness for the amended C9 on a concrete filesystem with a populated
`.hornet` directory. -/
theorem discovery_gated_on_hornet_dir_witness :
    find_hornet_manifests
      ⟨[⟨["repo"]⟩, ⟨["repo", ".hornet"]⟩],
       [⟨["repo", ".hornet", "cad_manifest.json"]⟩]⟩ ⟨["repo"]⟩ =
      (checkManifestFile
        ⟨[⟨["repo"]⟩, ⟨["repo", ".hornet"]⟩],
         [⟨["repo", ".hornet", "cad_manifest.json"]⟩]⟩
        ((PyPath.child ⟨["repo"]⟩ ".hornet").child "cad_manifest.json"),
       checkManifestFile
        ⟨[⟨["repo"]⟩, ⟨["repo", ".hornet"]⟩],
         [⟨["repo", ".hornet", "cad_manifest.json"]⟩]⟩
        ((PyPath.child ⟨["repo"]⟩ ".hornet").child "sim_manifest.json")) :=
  (discovery_gated_on_hornet_dir
    ⟨[⟨["repo"]⟩, ⟨["repo", ".hornet"]⟩],
     [⟨["repo", ".hornet", "cad_manifest.json"]⟩]⟩ ⟨["repo"]⟩).1 (by decide)

/-- C10: every manifest-processor invocation performed by the workflow
manifest step carries `fail_fast = true`, regardless of the `fail_fast`
argument the caller passed to the workflow. -/
theorem processorCalls_all_fail_fast (env : WorkflowEnv) (repoPath : PyPath)
    (ff : Bool) (tf nf : Option String) (rel : Option Release)
    (call : ProcessorCall)
    (hc : call ∈
      (process_manifests_w env repoPath ff tf nf rel).processorCalls) :
    call.fail_fast = true := by
  simp only [process_manifests_w, process_manifest_with_plugin] at hc
  split at hc
  · simp at hc
  · split at hc
    · simp at hc
    · split at hc
      · simp at hc
      · split at hc
        · simp only [List.mem_singleton] at hc
          rw [hc]
        · simp at hc

/-- Witness for C10: a concrete workflow run with `fail_fast = false` still
hands the processor `fail_fast = true`. -/
theorem processorCalls_all_fail_fast_witness :
    ProcessorCall.fail_fast
      ⟨⟨["repo", "cad_manifest.json"]⟩, ⟨["repo"]⟩, true, none, none, none⟩
      = true :=
  processorCalls_all_fail_fast
    ⟨⟨[⟨["repo"]⟩], [⟨["repo", "cad_manifest.json"]⟩]⟩,
      fun _ => Except.ok ⟨some "https://s", []⟩,
      fun _ => Except.ok "schema",
      fun _ _ => Except.ok (),
      fun _ _ _ _ _ _ => Except.ok (0, 0)⟩
    ⟨["repo"]⟩ false none none none
    ⟨⟨["repo", "cad_manifest.json"]⟩, ⟨["repo"]⟩, true, none, none, none⟩
    (by simp [process_manifests_w, process_manifest_with_plugin,
      find_hornet_manifests, checkManifestFile, validate_manifest_schema_w,
      extract_schema_url, FS.existsPath, FS.isFile, PyPath.child])

/-- C8 (amended): a discovered CAD manifest whose document lacks a `$schema`
field (or has a falsy one) makes the run fail with the missing-schema
FileNotFoundError when `fail_fast = true`; with `fail_fast = false` the error
is recorded as the first validation error and the run continues into
manifest processing. -/
theorem missing_schema_fatal_only_under_fail_fast
    (env : WorkflowEnv) (repoPath cad : PyPath) (doc : ManifestData)
    (tf nf : Option String) (rel : Option Release)
    (hcad : (find_hornet_manifests env.fs repoPath).1 = some cad)
    (hread : env.readManifest cad = Except.ok doc)
    (hschema : doc.schemaUrl = none ∨ doc.schemaUrl = some "") :
    (process_manifests_w env repoPath true tf nf rel).result
      = Except.error (Err.fileNotFound
          ("No $schema field found in " ++ cad.render)) ∧
    (process_manifests_w env repoPath false tf nf rel).result
      = env.processorRun cad repoPath true tf nf rel ∧
    (process_manifests_w env repoPath false tf nf rel).validationErrors.head?
      = some (ValErr.cad (Err.fileNotFound
          ("No $schema field found in " ++ cad.render))) := by
  have hval : validate_manifest_schema_w env cad
      = Except.error (Err.fileNotFound
          ("No $schema field found in " ++ cad.render)) := by
    rcases hschema with h | h <;>
      simp [validate_manifest_schema_w, hread, extract_schema_url, h]
  refine ⟨?_, ?_, ?_⟩
  · simp only [process_manifests_w, hcad, hval]
    simp
  · simp only [process_manifests_w, hcad, hval,
      process_manifest_with_plugin, processorProcessManifest]
    cases hsim : (find_hornet_manifests env.fs repoPath).2 with
    | none => simp [hsim]
    | some sm =>
        cases hv : validate_manifest_schema_w env sm with
        | ok u => simp [hsim, hv]
        | error e => simp [hsim, hv]
  · simp only [process_manifests_w, hcad, hval,
      process_manifest_with_plugin, processorProcessManifest]
    cases hsim : (find_hornet_manifests env.fs repoPath).2 with
    | none => simp [hsim]
    | some sm =>
        cases hv : validate_manifest_schema_w env sm with
        | ok u => simp [hsim, hv]
        | error e => simp [hsim, hv]

/-- Counterexample for C8: a concrete run over a manifest without `$schema`
and `fail_fast = false` returns the processor counts instead of failing, so
the missing-schema error is not hard regardless of `fail_fast`. -/
theorem missing_schema_nonfatal_without_fail_fast :
    (process_manifests_w
      ⟨⟨[⟨["repo"]⟩], [⟨["repo", "cad_manifest.json"]⟩]⟩,
        fun _ => Except.ok ⟨none, []⟩,
        fun _ => Except.ok "schema",
        fun _ _ => Except.ok (),
        fun _ _ _ _ _ _ => Except.ok (3, 3)⟩
      ⟨["repo"]⟩ false none none none).result = Except.ok (3, 3) ∧
    (WorkflowEnv.readManifest
      ⟨⟨[⟨["repo"]⟩], [⟨["repo", "cad_manifest.json"]⟩]⟩,
        fun _ => Except.ok ⟨none, []⟩,
        fun _ => Except.ok "schema",
        fun _ _ => Except.ok (),
        fun _ _ _ _ _ _ => Except.ok (3, 3)⟩
      ⟨["repo", "cad_manifest.json"]⟩ = Except.ok ⟨none, []⟩) ∧
    (find_hornet_manifests
      ⟨[⟨["repo"]⟩], [⟨["repo", "cad_manifest.json"]⟩]⟩ ⟨["repo"]⟩).1
      = some ⟨["repo", "cad_manifest.json"]⟩ := by
  refine ⟨?_, rfl, by decide⟩
  simp [process_manifests_w, process_manifest_with_plugin,
    processorProcessManifest, find_hornet_manifests, checkManifestFile,
    validate_manifest_schema_w, extract_schema_url, FS.existsPath, FS.isFile,
    PyPath.child]

/-- Witness for the amended C8 at a concrete environment. -/
theorem missing_schema_fatal_only_under_fail_fast_witness :
    (process_manifests_w
      ⟨⟨[⟨["repo"]⟩], [⟨["repo", "cad_manifest.json"]⟩]⟩,
        fun _ => Except.ok ⟨none, []⟩,
        fun _ => Except.ok "schema",
        fun _ _ => Except.ok (),
        fun _ _ _ _ _ _ => Except.ok (3, 3)⟩
      ⟨["repo"]⟩ true none none none).result
      = Except.error (Err.fileNotFound ("No $schema field found in "
          ++ PyPath.render ⟨["repo", "cad_manifest.json"]⟩)) ∧
    (process_manifests_w
      ⟨⟨[⟨["repo"]⟩], [⟨["repo", "cad_manifest.json"]⟩]⟩,
        fun _ => Except.ok ⟨none, []⟩,
        fun _ => Except.ok "schema",
        fun _ _ => Except.ok (),
        fun _ _ _ _ _ _ => Except.ok (3, 3)⟩
      ⟨["repo"]⟩ false none none none).result
      = WorkflowEnv.processorRun
          ⟨⟨[⟨["repo"]⟩], [⟨["repo", "cad_manifest.json"]⟩]⟩,
            fun _ => Except.ok ⟨none, []⟩,
            fun _ => Except.ok "schema",
            fun _ _ => Except.ok (),
            fun _ _ _ _ _ _ => Except.ok (3, 3)⟩
          ⟨["repo", "cad_manifest.json"]⟩ ⟨["repo"]⟩ true none none none ∧
    (process_manifests_w
      ⟨⟨[⟨["repo"]⟩], [⟨["repo", "cad_manifest.json"]⟩]⟩,
        fun _ => Except.ok ⟨none, []⟩,
        fun _ => Except.ok "schema",
        fun _ _ => Except.ok (),
        fun _ _ _ _ _ _ => Except.ok (3, 3)⟩
      ⟨["repo"]⟩ false none none none).validationErrors.head?
      = some (ValErr.cad (Err.fileNotFound ("No $schema field found in "
          ++ PyPath.render ⟨["repo", "cad_manifest.json"]⟩))) :=
  missing_schema_fatal_only_under_fail_fast
    ⟨⟨[⟨["repo"]⟩], [⟨["repo", "cad_manifest.json"]⟩]⟩,
      fun _ => Except.ok ⟨none, []⟩,
      fun _ => Except.ok "schema",
      fun _ _ => Except.ok (),
      fun _ _ _ _ _ _ => Except.ok (3, 3)⟩
    ⟨["repo"]⟩ ⟨["repo", "cad_manifest.json"]⟩ ⟨none, []⟩ none none none
    (by decide) rfl (Or.inl rfl)

/-- Dict-lookup after dict-assignment on the callback registry. -/
theorem getCallbacks_setCallbacks
    (l : List (WorkflowEvent × List Handler)) (e e' : WorkflowEvent)
    (hs : List Handler) :
    getCallbacks (setCallbacks l e hs) e'
      = if e = e' then some hs else getCallbacks l e' := by
  induction l with
  | nil => simp [setCallbacks, getCallbacks]
  | cons hd rest ih =>
      obtain ⟨e0, hs0⟩ := hd
      by_cases h0 : e0 = e
      · subst h0
        by_cases h1 : e0 = e'
        · subst h1
          simp [setCallbacks, getCallbacks]
        · simp [setCallbacks, getCallbacks, h1]
      · by_cases h1 : e0 = e'
        · subst h1
          simp [setCallbacks, getCallbacks, h0, Ne.symm h0]
        · simp [setCallbacks, getCallbacks, h0, h1, ih]

/-- A register sequence folded over a dispatcher appends, per event, exactly
the handlers registered for that event, in registration order. -/
theorem regFoldCallbacks (regs : List (WorkflowEvent × Handler)) :
    ∀ (d : EventDispatcher) (e : WorkflowEvent),
    ((getCallbacks
        (regs.foldl (fun d r => d.reg r.1 r.2) d).callbacks e).getD [])
      = ((getCallbacks d.callbacks e).getD [])
        ++ (regs.filter (fun r => r.1 == e)).map (fun r => r.2) := by
  induction regs with
  | nil => intro d e; simp
  | cons hd rest ih =>
      intro d e
      obtain ⟨e0, h0⟩ := hd
      simp only [List.foldl_cons]
      rw [ih (d.reg e0 h0) e]
      have hget : getCallbacks (d.reg e0 h0).callbacks e
          = if e0 = e then some ((getCallbacks d.callbacks e0).getD [] ++ [h0])
            else getCallbacks d.callbacks e := by
        simp [EventDispatcher.reg, getCallbacks_setCallbacks]
      by_cases he : e0 = e
      · subst he
        rw [hget]
        simp
      · rw [hget]
        simp [he, List.filter_cons]

/-- C7: after any sequence of register calls on a fresh dispatcher, a trigger
invokes exactly the handlers registered for that event, each exactly once, in
registration order, all with the trigger context; each invocation records its
own outcome (a raising handler is caught), so no handler outcome prevents the
remaining invocations or escapes the trigger. -/
theorem event_dispatcher_ordered_isolated_delivery
    (regs : List (WorkflowEvent × Handler)) (e : WorkflowEvent) (ctx : Ctx) :
    (registerAll regs).trig e ctx
      = ((regs.filter (fun r => r.1 == e)).map (fun r => r.2)).map
          (fun h => (h.tag, ctx, h.run ctx)) := by
  have htrig : ∀ (d : EventDispatcher),
      d.trig e ctx = ((getCallbacks d.callbacks e).getD []).map
        (fun h => (h.tag, ctx, h.run ctx)) := by
    intro d
    unfold EventDispatcher.trig
    cases hg : getCallbacks d.callbacks e with
    | none => simp
    | some hs => simp
  rw [htrig, registerAll, regFoldCallbacks]
  simp [EventDispatcher.empty, getCallbacks]

/-- After removing a directory tree, no path at or below its root exists. -/
theorem rmtree_removes_subtree (fs : FS) (root p : PyPath)
    (h : root.segs.isPrefixOf p.segs = true) :
    (fs.rmtree root).existsPath p = false := by
  simp only [FS.rmtree, FS.existsPath, Bool.or_eq_false_iff]
  constructor <;>
  · rw [List.contains_eq_any_beq]
    simp only [List.any_eq_false, List.mem_filter]
    rintro q ⟨hq, hnp⟩ hbeq
    have hqp : p = q := by simpa using hbeq
    rw [← hqp, h] at hnp
    simp at hnp

/-- Full case analysis of the provisioning step: an invalid URL or a failed
clone ends with the allocated directory removed and the error propagated; a
successful clone keeps the allocated directory and returns the target. -/
theorem provision_outcome_cases (gitOk : Bool) (repoUrl : String) (workPath : PyPath)
    (unique : String) (fs : FS) :
    provisionRepository gitOk repoUrl workPath unique fs
      = (if (!(pyStartsWith repoUrl "http://")
            && !(pyStartsWith repoUrl "https://")) = true then
          ((fs.mkdir (workPath.child ("hornet_" ++ unique ++ "_repo"))).rmtree
            (workPath.child ("hornet_" ++ unique ++ "_repo")),
           Except.error (Err.valueError
            ("Repository URL must be HTTP(S): " ++ repoUrl)))
        else if gitOk then
          (((fs.mkdir (workPath.child ("hornet_" ++ unique ++ "_repo"))).mkdir
              ((workPath.child ("hornet_" ++ unique ++ "_repo")).child
                (pathStem (lastSlashSeg (rstripSlashes repoUrl))))),
           Except.ok ((workPath.child ("hornet_" ++ unique ++ "_repo")).child
                (pathStem (lastSlashSeg (rstripSlashes repoUrl)))))
        else
          ((((fs.mkdir (workPath.child ("hornet_" ++ unique ++ "_repo"))).mkdir
              ((workPath.child ("hornet_" ++ unique ++ "_repo")).child
                (pathStem (lastSlashSeg (rstripSlashes repoUrl))))).rmtree
            (workPath.child ("hornet_" ++ unique ++ "_repo")),
           Except.error (Err.calledProcessError "git clone")))) := by
  by_cases hurl : (!(pyStartsWith repoUrl "http://")
      && !(pyStartsWith repoUrl "https://")) = true
  · simp [provisionRepository, localRepositoryDir, clone_repository, hurl,
      FS.mkdir, FS.existsPath]
  · cases gitOk with
    | true =>
        simp [provisionRepository, localRepositoryDir, clone_repository, hurl,
          FS.mkdir, FS.existsPath]
    | false =>
        simp [provisionRepository, localRepositoryDir, clone_repository, hurl,
          FS.mkdir, FS.existsPath]

/-- C4: repository provisioning for a remote URL cleans up asymmetrically:
whenever the provisioning step raises (invalid URL or failed clone), the
freshly allocated working directory and everything below it no longer exist
when the exception propagates; on success the working directory and the
cloned target below it exist, and the target is exactly the repository path
handed back. -/
theorem provisioning_cleanup_asymmetry (gitOk : Bool) (repoUrl : String)
    (workPath : PyPath) (unique : String) (fs : FS) :
    (∀ (fsF : FS) (e : Err),
      provisionRepository gitOk repoUrl workPath unique fs
        = (fsF, Except.error e) →
      ∀ p : PyPath,
        (workPath.child ("hornet_" ++ unique ++ "_repo")).segs.isPrefixOf
          p.segs = true →
        fsF.existsPath p = false) ∧
    (∀ (fsF : FS) (rp : PyPath),
      provisionRepository gitOk repoUrl workPath unique fs
        = (fsF, Except.ok rp) →
      rp = (workPath.child ("hornet_" ++ unique ++ "_repo")).child
            (pathStem (lastSlashSeg (rstripSlashes repoUrl))) ∧
      fsF.existsPath rp = true ∧
      fsF.existsPath (workPath.child ("hornet_" ++ unique ++ "_repo"))
        = true) := by
  rw [provision_outcome_cases]
  by_cases hurl : (!(pyStartsWith repoUrl "http://")
      && !(pyStartsWith repoUrl "https://")) = true
  · rw [if_pos hurl]
    refine ⟨fun fsF e hpr p hpre => ?_, fun fsF rp hpr => ?_⟩
    · have hfs : fsF = (fs.mkdir
          (workPath.child ("hornet_" ++ unique ++ "_repo"))).rmtree
          (workPath.child ("hornet_" ++ unique ++ "_repo")) :=
        (congrArg Prod.fst hpr).symm
      rw [hfs]
      exact rmtree_removes_subtree _ _ _ hpre
    · exact absurd (congrArg Prod.snd hpr) (by simp)
  · rw [if_neg hurl]
    cases gitOk with
    | true =>
        rw [if_pos rfl]
        refine ⟨fun fsF e hpr p hpre => ?_, fun fsF rp hpr => ?_⟩
        · exact absurd (congrArg Prod.snd hpr) (by simp)
        · have hfs : fsF = (fs.mkdir
              (workPath.child ("hornet_" ++ unique ++ "_repo"))).mkdir
              ((workPath.child ("hornet_" ++ unique ++ "_repo")).child
                (pathStem (lastSlashSeg (rstripSlashes repoUrl)))) :=
            (congrArg Prod.fst hpr).symm
          have hrp : rp = (workPath.child
              ("hornet_" ++ unique ++ "_repo")).child
              (pathStem (lastSlashSeg (rstripSlashes repoUrl))) := by
            have h2 := congrArg Prod.snd hpr
            simp only at h2
            exact (Except.ok.inj h2).symm
          refine ⟨hrp, ?_, ?_⟩
          · rw [hfs, hrp]
            simp [FS.mkdir, FS.existsPath]
          · rw [hfs]
            simp [FS.mkdir, FS.existsPath]
    | false =>
        rw [if_neg (by simp)]
        refine ⟨fun fsF e hpr p hpre => ?_, fun fsF rp hpr => ?_⟩
        · have hfs : fsF = ((fs.mkdir
              (workPath.child ("hornet_" ++ unique ++ "_repo"))).mkdir
              ((workPath.child ("hornet_" ++ unique ++ "_repo")).child
                (pathStem (lastSlashSeg (rstripSlashes repoUrl))))).rmtree
              (workPath.child ("hornet_" ++ unique ++ "_repo")) :=
            (congrArg Prod.fst hpr).symm
          rw [hfs]
          exact rmtree_removes_subtree _ _ _ hpre
        · exact absurd (congrArg Prod.snd hpr) (by simp)

/-- Witness for C4: a failed clone leaves no allocated directory; a
successful clone returns the target path inside the kept directory. -/
theorem provisioning_cleanup_asymmetry_witness :
    FS.existsPath
      ((provisionRepository false "https://host/repo.git" ⟨["tmp"]⟩ "u1"
        ⟨[], []⟩).1)
      (PyPath.child ⟨["tmp"]⟩ "hornet_u1_repo") = false ∧
    (⟨["tmp", "hornet_u1_repo", "repo"]⟩ : PyPath)
      = (PyPath.child ⟨["tmp"]⟩ "hornet_u1_repo").child
          (pathStem (lastSlashSeg (rstripSlashes "https://host/repo.git"))) ∧
    FS.existsPath
      ⟨[⟨["tmp", "hornet_u1_repo", "repo"]⟩, ⟨["tmp", "hornet_u1_repo"]⟩], []⟩
      ⟨["tmp", "hornet_u1_repo", "repo"]⟩ = true ∧
    FS.existsPath
      ⟨[⟨["tmp", "hornet_u1_repo", "repo"]⟩, ⟨["tmp", "hornet_u1_repo"]⟩], []⟩
      (PyPath.child ⟨["tmp"]⟩ "hornet_u1_repo") = true := by
  refine ⟨?_, ?_⟩
  · exact (provisioning_cleanup_asymmetry false "https://host/repo.git"
      ⟨["tmp"]⟩ "u1" ⟨[], []⟩).1
      (provisionRepository false "https://host/repo.git" ⟨["tmp"]⟩ "u1"
        ⟨[], []⟩).1
      (Err.calledProcessError "git clone") (by decide)
      (PyPath.child ⟨["tmp"]⟩ "hornet_u1_repo") (by decide)
  · exact (provisioning_cleanup_asymmetry true "https://host/repo.git"
      ⟨["tmp"]⟩ "u1" ⟨[], []⟩).2
      ⟨[⟨["tmp", "hornet_u1_repo", "repo"]⟩, ⟨["tmp", "hornet_u1_repo"]⟩], []⟩
      ⟨["tmp", "hornet_u1_repo", "repo"]⟩ (by decide)

/-- Without fail-fast, file resolution keeps exactly the existing resolved
paths and logs exactly the missing ones, in order. -/
theorem resolveFilesGo_no_ff (ex : PyPath → Bool) (mp rp : PyPath) :
    ∀ (L : List MFile) (acc miss : List PyPath),
    resolveFilesGo ex mp rp false L acc miss
      = (Except.ok (acc ++ (L.map
            (fun f => resolve_component_file_path mp f.path rp)).filter ex),
         miss ++ (L.map
            (fun f => resolve_component_file_path mp f.path rp)).filter
            (fun p => !ex p)) := by
  intro L
  induction L with
  | nil => intro acc miss; simp [resolveFilesGo]
  | cons f rest ih =>
      intro acc miss
      simp only [resolveFilesGo]
      by_cases hex : ex (resolve_component_file_path mp f.path rp) = true
      · rw [if_pos hex, ih]
        simp [hex]
      · rw [if_neg hex]
        simp only [Bool.false_eq_true, if_false, ih]
        have hex' : ex (resolve_component_file_path mp f.path rp) = false :=
          by simpa using hex
        simp [hex']

/-- Without fail-fast, a component resolves to its existing files with its
missing files logged. -/
theorem resolve_component_files_no_ff (ex : PyPath → Bool) (c : Component)
    (mp rp : PyPath) :
    resolve_component_files ex c mp rp false
      = (Except.ok (resolvedExisting ex mp rp c),
         resolvedMissing ex mp rp c) := by
  unfold resolve_component_files resolvedExisting resolvedMissing
  rw [resolveFilesGo_no_ff]
  simp

/-- When all files of the remaining list exist, resolution succeeds with all
resolved paths and logs nothing, for either fail-fast mode. -/
theorem resolveFilesGo_all_exist (ex : PyPath → Bool) (mp rp : PyPath)
    (ff : Bool) :
    ∀ (L : List MFile) (acc miss : List PyPath),
    (∀ f ∈ L, ex (resolve_component_file_path mp f.path rp) = true) →
    resolveFilesGo ex mp rp ff L acc miss
      = (Except.ok (acc ++ L.map
          (fun f => resolve_component_file_path mp f.path rp)), miss) := by
  intro L
  induction L with
  | nil => intro acc miss _; simp [resolveFilesGo]
  | cons f rest ih =>
      intro acc miss hall
      simp only [resolveFilesGo]
      rw [if_pos (hall f (by simp)), ih _ _ (fun g hg => hall g (by simp [hg]))]
      simp

/-- Under fail-fast, resolution raises FileNotFoundError for the first
missing resolved path of the list. -/
theorem resolveFilesGo_first_missing (ex : PyPath → Bool) (mp rp : PyPath) :
    ∀ (L : List MFile) (acc miss : List PyPath) (p0 : PyPath),
    (L.map (fun f => resolve_component_file_path mp f.path rp)).find?
      (fun p => !ex p) = some p0 →
    ∃ miss', resolveFilesGo ex mp rp true L acc miss
      = (Except.error (Err.fileNotFound ("Missing file: " ++ p0.render)),
         miss') := by
  intro L
  induction L with
  | nil => intro acc miss p0 h; simp at h
  | cons f rest ih =>
      intro acc miss p0 h
      simp only [List.map_cons] at h
      by_cases hex : ex (resolve_component_file_path mp f.path rp) = true
      · have hstep : (resolve_component_file_path mp f.path rp ::
            rest.map (fun f => resolve_component_file_path mp f.path rp)).find?
            (fun p => !ex p)
            = (rest.map
                (fun f => resolve_component_file_path mp f.path rp)).find?
                (fun p => !ex p) := by
          apply List.find?_cons_of_neg
          simp [hex]
        rw [hstep] at h
        simp only [resolveFilesGo]
        rw [if_pos hex]
        exact ih _ _ _ h
      · have hex' : (!ex (resolve_component_file_path mp f.path rp)) = true :=
          by simpa using hex
        have hstep : (resolve_component_file_path mp f.path rp ::
            rest.map (fun f => resolve_component_file_path mp f.path rp)).find?
            (fun p => !ex p)
            = some (resolve_component_file_path mp f.path rp) := by
          apply List.find?_cons_of_pos
          simpa using hex
        rw [hstep] at h
        have hp0 : resolve_component_file_path mp f.path rp = p0 :=
          Option.some.inj h
        simp only [resolveFilesGo]
        rw [if_neg (by simpa using hex), hp0]
        exact ⟨miss ++ [p0], by simp⟩

/-- Without fail-fast, a single-component step never raises. -/
theorem process_single_no_ff
    (load : Component → List PyPath → Except Err Bool) (c : Component)
    (files : List PyPath) :
    ∃ b, process_single_component load c files false = Except.ok b := by
  unfold process_single_component
  cases load c files with
  | ok bb => cases bb <;> simp
  | error e => simp

/-- Without fail-fast, the processing loop completes over the whole list,
invoking the plugin once per filter survivor, in order, with exactly the
existing resolved files, and logging every missing file. -/
theorem processGo_no_ff (load : Component → List PyPath → Except Err Bool)
    (ex : PyPath → Bool) (mp rp : PyPath) (tf nf : Option String) :
    ∀ (L : List Component) (idx s t : Nat) (ls : List LoadCall)
      (ms : List PyPath), ∃ k,
    processGo load ex mp rp false tf nf L idx s t ls ms
      = (Except.ok (s + k, t + L.length),
         ls ++ expectedCallsFrom ex mp rp tf nf L idx,
         ms ++ expectedMissingAll ex mp rp tf nf L) := by
  intro L
  induction L with
  | nil =>
      intro idx s t ls ms
      exact ⟨0, by simp [processGo, expectedCallsFrom, expectedMissingAll]⟩
  | cons c rest ih =>
      intro idx s t ls ms
      by_cases hsp : should_process_component c tf nf = false
      · obtain ⟨k, hk⟩ := ih (idx + 1) s (t + 1) ls ms
        refine ⟨k, ?_⟩
        simp only [processGo, hsp, if_pos rfl, hk, expectedCallsFrom,
          expectedMissingAll]
        have hsp2 : should_process_component c tf nf = true ↔ False := by
          simp [hsp]
        simp [hsp, List.length_cons]
        omega
      · have hspT : should_process_component c tf nf = true := by
          cases hx : should_process_component c tf nf
          · exact absurd hx hsp
          · rfl
        obtain ⟨b, hb⟩ := process_single_no_ff load c
          (resolvedExisting ex mp rp c)
        cases b with
        | true =>
            obtain ⟨k, hk⟩ := ih (idx + 1) (s + 1) (t + 1)
              (ls ++ [⟨idx, c.id, resolvedExisting ex mp rp c⟩])
              (ms ++ resolvedMissing ex mp rp c)
            refine ⟨k + 1, ?_⟩
            simp only [processGo, hsp, resolve_component_files_no_ff, hb, hk,
              expectedCallsFrom, expectedMissingAll, hspT, if_pos rfl]
            rw [show s + 1 + k = s + (k + 1) from by omega,
              show t + 1 + rest.length = t + (c :: rest).length from by
                simp only [List.length_cons]; omega]
            simp [List.append_assoc]
        | false =>
            obtain ⟨k, hk⟩ := ih (idx + 1) s (t + 1)
              (ls ++ [⟨idx, c.id, resolvedExisting ex mp rp c⟩])
              (ms ++ resolvedMissing ex mp rp c)
            refine ⟨k, ?_⟩
            simp only [processGo, hsp, resolve_component_files_no_ff, hb, hk,
              expectedCallsFrom, expectedMissingAll, hspT, if_pos rfl]
            rw [show t + 1 + rest.length = t + (c :: rest).length from by
                simp only [List.length_cons]; omega]
            simp [List.append_assoc]

/-- Under fail-fast, once the loop reaches a surviving component with a
missing file after a clean prefix, it raises the missing-file error and every
plugin invocation performed has a walk index before that component. -/
theorem processGo_abort (load : Component → List PyPath → Except Err Bool)
    (ex : PyPath → Bool) (mp rp : PyPath) (tf nf : Option String)
    (c : Component) (p0 : PyPath) (post : List Component)
    (hc : should_process_component c tf nf = true)
    (hm : firstMissing ex mp rp c = some p0) :
    ∀ (pre : List Component) (idx s t : Nat) (ls : List LoadCall)
      (ms : List PyPath),
    (∀ c' ∈ pre, should_process_component c' tf nf = true →
      (∀ f ∈ c'.files, ex (resolve_component_file_path mp f.path rp) = true) ∧
      load c' (c'.files.map
        (fun f => resolve_component_file_path mp f.path rp))
        = Except.ok true) →
    ∃ ls' ms',
      processGo load ex mp rp true tf nf (pre ++ c :: post) idx s t ls ms
        = (Except.error (Err.fileNotFound ("Missing file: " ++ p0.render)),
           ls', ms') ∧
      ∀ call ∈ ls', call ∈ ls ∨ call.idx < idx + pre.length := by
  intro pre
  induction pre with
  | nil =>
      intro idx s t ls ms _
      simp only [List.nil_append, processGo]
      rw [if_neg (by simp [hc])]
      obtain ⟨miss', hmiss⟩ := resolveFilesGo_first_missing ex mp rp c.files
        [] [] p0 (by simpa [firstMissing] using hm)
      have hres : resolve_component_files ex c mp rp true
          = (Except.error (Err.fileNotFound ("Missing file: " ++ p0.render)),
             miss') := by
        simpa [resolve_component_files] using hmiss
      rw [hres]
      exact ⟨ls, ms ++ miss', rfl, fun call hcall => Or.inl hcall⟩
  | cons c' pre' ih =>
      intro idx s t ls ms hpre
      simp only [List.cons_append, processGo]
      by_cases hsp : should_process_component c' tf nf = false
      · rw [if_pos hsp]
        obtain ⟨ls', ms', heq, hcalls⟩ := ih (idx + 1) s (t + 1) ls ms
          (fun d hd hds => hpre d (by simp [hd]) hds)
        refine ⟨ls', ms', heq, fun call hcall => ?_⟩
        rcases hcalls call hcall with hin | hlt
        · exact Or.inl hin
        · exact Or.inr (by simp [List.length_cons]; omega)
      · have hspT : should_process_component c' tf nf = true := by
          cases hx : should_process_component c' tf nf
          · exact absurd hx hsp
          · rfl
        rw [if_neg hsp]
        obtain ⟨hall, hload⟩ := hpre c' (by simp) hspT
        have hres : resolve_component_files ex c' mp rp true
            = (Except.ok (c'.files.map
                (fun f => resolve_component_file_path mp f.path rp)), []) := by
          unfold resolve_component_files
          rw [resolveFilesGo_all_exist ex mp rp true c'.files [] [] hall]
          simp
        rw [hres]
        dsimp only
        have hps : process_single_component load c'
            (c'.files.map (fun f => resolve_component_file_path mp f.path rp))
            true = Except.ok true := by
          unfold process_single_component
          rw [hload]
        rw [hps]
        dsimp only
        obtain ⟨ls', ms', heq, hcalls⟩ := ih (idx + 1) (s + 1) (t + 1)
          (ls ++ [⟨idx, c'.id,
            c'.files.map (fun f => resolve_component_file_path mp f.path rp)⟩])
          (ms ++ []) (fun d hd hds => hpre d (by simp [hd]) hds)
        refine ⟨ls', ms', heq, fun call hcall => ?_⟩
        rcases hcalls call hcall with hin | hlt
        · rcases List.mem_append.mp hin with hin | hin
          · exact Or.inl hin
          · refine Or.inr ?_
            have hceq : call = ⟨idx, c'.id, c'.files.map
                (fun f => resolve_component_file_path mp f.path rp)⟩ := by
              simpa using hin
            rw [hceq]
            simp [List.length_cons]
        · exact Or.inr (by simp [List.length_cons]; omega)

/-- C3: under fail-fast, when the walk reaches a filter-surviving component
one of whose referenced files is missing (all earlier surviving components
resolving and loading cleanly), processing raises FileNotFoundError for the
first missing file of that component, and the plugin is never invoked for
that component or any later one (every performed invocation has a strictly
smaller walk index). Without fail-fast, processing always completes: every
missing file is logged and omitted from the file list handed to the plugin,
which is invoked for every filter-surviving component in walk order. -/
theorem missing_file_abort_or_skip
    (load : Component → List PyPath → Except Err Bool) (ex : PyPath → Bool)
    (m : ManifestData) (mp rp : PyPath) (tf nf : Option String) :
    (∀ (pre : List Component) (c : Component) (post : List Component)
       (p0 : PyPath),
      walk_manifest_components m = pre ++ c :: post →
      (∀ c' ∈ pre, should_process_component c' tf nf = true →
        (∀ f ∈ c'.files,
          ex (resolve_component_file_path mp f.path rp) = true) ∧
        load c' (c'.files.map
          (fun f => resolve_component_file_path mp f.path rp))
          = Except.ok true) →
      should_process_component c tf nf = true →
      firstMissing ex mp rp c = some p0 →
      ∃ ls ms,
        process_components load ex m mp rp true tf nf
          = (Except.error (Err.fileNotFound ("Missing file: " ++ p0.render)),
             ls, ms) ∧
        ∀ call ∈ ls, call.idx < pre.length) ∧
    (∃ s, process_components load ex m mp rp false tf nf
        = (Except.ok (s, (walk_manifest_components m).length),
           expectedCallsFrom ex mp rp tf nf (walk_manifest_components m) 0,
           expectedMissingAll ex mp rp tf nf (walk_manifest_components m))) := by
  constructor
  · intro pre c post p0 hwalk hpre hc hm
    obtain ⟨ls', ms', heq, hcalls⟩ := processGo_abort load ex mp rp tf nf
      c p0 post hc hm pre 0 0 0 [] [] hpre
    refine ⟨ls', ms', ?_, fun call hcall => ?_⟩
    · rw [process_components, hwalk]
      exact heq
    · rcases hcalls call hcall with hin | hlt
      · simp at hin
      · simpa using hlt
  · obtain ⟨k, hk⟩ := processGo_no_ff load ex mp rp tf nf
      (walk_manifest_components m) 0 0 0 [] []
    exact ⟨k, by simpa [process_components] using hk⟩

/-- Witness for C3 on a concrete two-component manifest whose second
component references a missing file. -/
theorem missing_file_abort_or_skip_witness :
    (∃ ls ms,
      process_components (fun _ _ => Except.ok true)
        (fun p => p == PyPath.mk ["repo", "a.step"])
        ⟨some "u",
          [CDict.mk "c1" "part" "d1" [MFile.mk "a.step" "step_export"] [],
           CDict.mk "c2" "part" "d2" [MFile.mk "b.step" "step_export"] []]⟩
        ⟨["repo", "cad_manifest.json"]⟩ ⟨["repo"]⟩ true none none
        = (Except.error (Err.fileNotFound ("Missing file: "
            ++ PyPath.render ⟨["repo", "b.step"]⟩)), ls, ms) ∧
      ∀ call ∈ ls, call.idx < 1) ∧
    (∃ s,
      process_components (fun _ _ => Except.ok true)
        (fun p => p == PyPath.mk ["repo", "a.step"])
        ⟨some "u",
          [CDict.mk "c1" "part" "d1" [MFile.mk "a.step" "step_export"] [],
           CDict.mk "c2" "part" "d2" [MFile.mk "b.step" "step_export"] []]⟩
        ⟨["repo", "cad_manifest.json"]⟩ ⟨["repo"]⟩ false none none
        = (Except.ok (s,
            (walk_manifest_components
              ⟨some "u",
                [CDict.mk "c1" "part" "d1" [MFile.mk "a.step" "step_export"] [],
                 CDict.mk "c2" "part" "d2"
                   [MFile.mk "b.step" "step_export"] []]⟩).length),
           expectedCallsFrom (fun p => p == PyPath.mk ["repo", "a.step"])
             ⟨["repo", "cad_manifest.json"]⟩ ⟨["repo"]⟩ none none
             (walk_manifest_components
              ⟨some "u",
                [CDict.mk "c1" "part" "d1" [MFile.mk "a.step" "step_export"] [],
                 CDict.mk "c2" "part" "d2"
                   [MFile.mk "b.step" "step_export"] []]⟩) 0,
           expectedMissingAll (fun p => p == PyPath.mk ["repo", "a.step"])
             ⟨["repo", "cad_manifest.json"]⟩ ⟨["repo"]⟩ none none
             (walk_manifest_components
              ⟨some "u",
                [CDict.mk "c1" "part" "d1" [MFile.mk "a.step" "step_export"] [],
                 CDict.mk "c2" "part" "d2"
                   [MFile.mk "b.step" "step_export"] []]⟩))) := by
  constructor
  · refine (missing_file_abort_or_skip (fun _ _ => Except.ok true)
      (fun p => p == PyPath.mk ["repo", "a.step"])
      ⟨some "u",
        [CDict.mk "c1" "part" "d1" [MFile.mk "a.step" "step_export"] [],
         CDict.mk "c2" "part" "d2" [MFile.mk "b.step" "step_export"] []]⟩
      ⟨["repo", "cad_manifest.json"]⟩ ⟨["repo"]⟩ none none).1
      [mkComponent (CDict.mk "c1" "part" "d1"
        [MFile.mk "a.step" "step_export"] []) []]
      (mkComponent (CDict.mk "c2" "part" "d2"
        [MFile.mk "b.step" "step_export"] []) [])
      [] ⟨["repo", "b.step"]⟩
      (by simp [walk_manifest_components, walkList])
      ?_ (by decide) (by decide)
    intro c' hc' hsp
    have hc1 : c' = mkComponent (CDict.mk "c1" "part" "d1"
        [MFile.mk "a.step" "step_export"] []) [] := by simpa using hc'
    subst hc1
    refine ⟨?_, rfl⟩
    intro f hf
    have hf1 : f = MFile.mk "a.step" "step_export" := by
      simpa [mkComponent, CDict.files] using hf
    subst hf1
    decide
  · exact (missing_file_abort_or_skip (fun _ _ => Except.ok true)
      (fun p => p == PyPath.mk ["repo", "a.step"])
      ⟨some "u",
        [CDict.mk "c1" "part" "d1" [MFile.mk "a.step" "step_export"] [],
         CDict.mk "c2" "part" "d2" [MFile.mk "b.step" "step_export"] []]⟩
      ⟨["repo", "cad_manifest.json"]⟩ ⟨["repo"]⟩ none none).2
